import Mathlib

/-!
Shallow embedding of the Live-Market-Prize2 trading pipeline.

Prices are modelled as rationals (`ℚ`).  The raw tick price is an integer in
minor units (paise), divided by 100 on arrival, exactly as in
`market/Datafeed/connection.py`.  Python's `round(x, 2)` is modelled by
`round2`.  The Django `Position` table is modelled as a `List PositionRec`
in primary-key (insertion) order; `.filter(...).first()` without an
`order_by` is the first matching record in that order, and
`.order_by('-entry_datetime').first()` picks the open record with the
largest `entry_datetime` (earliest record on ties).  Timestamps are
abstract naturals.  Notifications sent to the frontend are modelled as an
emitted `Event` list.
-/

/-- Python `round(x, 2)` (half rounds up here; no claim exercises an exact
half so the tie-breaking direction is immaterial). -/
def round2 (q : ℚ) : ℚ := ((q * 100 + 1 / 2).floor : ℚ) / 100

/-- `Rat.floor` agrees with the `FloorRing` floor (used to borrow `⌊·⌋`
lemmas in proofs about `round2`). -/
theorem rat_floor_eq_intFloor (q : ℚ) : q.floor = ⌊q⌋ :=
  (Rat.floor_def' q).trans Rat.floor_def.symm

/-- One row of the `market_position` table (`market/models.py`). -/
structure PositionRec where
  symbol : String
  exchange : String
  token : String
  entry_price : Option ℚ
  entry_datetime : ℕ
  exit_price : Option ℚ
  exit_datetime : Option ℕ
  target : Option ℚ
  stoploss : Option ℚ
  mtm : ℚ
  status : String
  lots : ℕ
  quantity : ℕ
deriving DecidableEq, Repr

/-- The `adx` sub-dictionary of an indicator payload: `none` stands for the
Python `None` (and for the "Not enough data" string, which the strategy
treats the same way). -/
structure AdxInfo where
  adx : Option ℚ
  di_plus : Option ℚ
  di_minus : Option ℚ
deriving DecidableEq, Repr

/-- The indicator payload built in `send_current_indicators`. -/
structure IndicatorSnapshot where
  rsi14 : Option ℚ
  macd_line : Option ℚ
  macd_sig : Option ℚ
  macd_hist : Option ℚ
  adx : AdxInfo
deriving DecidableEq, Repr

/-- Messages pushed to the frontend / upstream feed, by kind. -/
inductive Event where
  | priceUpdate (token : String) (ltp : ℚ)
  | mtmUpdate (token : String) (mtm : ℚ)
  | autoExit (token : String) (price : ℚ)
  | positionOpened (token : String) (target stoploss : ℚ)
  | positionClosed (token : String) (exitPrice pnl : ℚ)
  | indicatorUpdate (token : String) (snap : IndicatorSnapshot)
  | subscribedResp (symbols tokens : List String)
  | noNewSubscriptions
  | warningSymbolNotFound (symbol : String)
  | subscribeUpstream (exchangeType : ℕ) (tokens : List String)
  | errorMsg (msg : String)
deriving DecidableEq, Repr

/-- `Position.objects.filter(token=tok, status="OPEN")` membership test. -/
def isOpenFor (tok : String) (p : PositionRec) : Bool :=
  p.token == tok && p.status == "OPEN"

/-- Indexed records matching the OPEN filter, in table order, indices
starting at `i`. -/
def openIdxRecsAux (tok : String) : ℕ → List PositionRec → List (ℕ × PositionRec)
  | _, [] => []
  | i, p :: rest =>
    if isOpenFor tok p then (i, p) :: openIdxRecsAux tok (i + 1) rest
    else openIdxRecsAux tok (i + 1) rest

def openIdxRecs (ps : List PositionRec) (tok : String) : List (ℕ × PositionRec) :=
  openIdxRecsAux tok 0 ps

/-- Pick the entry with the greatest `entry_datetime` (first on ties):
`order_by('-entry_datetime').first()`. -/
def pickLatest : List (ℕ × PositionRec) → Option (ℕ × PositionRec)
  | [] => none
  | x :: xs =>
    some (xs.foldl (fun b y => if b.2.entry_datetime < y.2.entry_datetime then y else b) x)

/-- `get_open_position_for_token` (consumers.py lines 565-569). -/
def get_open_position_for_token (ps : List PositionRec) (tok : String) :
    Option (ℕ × PositionRec) :=
  pickLatest (openIdxRecs ps tok)

/-- The unordered `filter(...).first()` used by `on_data`
(connection.py lines 97-100): first matching row in table order. -/
def findOpenFirst (ps : List PositionRec) (tok : String) : Option (ℕ × PositionRec) :=
  (openIdxRecs ps tok).head?

/-!  Indicator Engine: `market/Strategies/indicators.py`. -/

/-- `np.diff` of the close series. -/
def diffs : List ℚ → List ℚ
  | [] => []
  | [_] => []
  | a :: b :: rest => (b - a) :: diffs (b :: rest)

/-- One iteration of the smoothing loop in `calculate_rsi`
(indicators.py lines 16-27), updating the `(up, down)` pair. -/
def wilderStep (period : ℕ) (ud : ℚ × ℚ) (delta : ℚ) : ℚ × ℚ :=
  let upval : ℚ := if delta > 0 then delta else 0
  let downval : ℚ := if delta > 0 then 0 else -delta
  ((ud.1 * ((period : ℚ) - 1) + upval) / period,
   (ud.2 * ((period : ℚ) - 1) + downval) / period)

/-- `100 - 100/(1+rs)` with `rs = up/down`, where `down = 0` gives
`rs = np.inf` and hence RSI `100`. -/
def rsiFromUD (up down : ℚ) : ℚ :=
  if down = 0 then 100 else 100 - 100 / (1 + up / down)

/-- `calculate_rsi` (indicators.py lines 4-28).  Note the source seeds from
`deltas[:period+1]` (up to `period+1` deltas, summed and divided by
`period`) and its loop re-applies `deltas[period-1]`, which already entered
the seed. -/
def calculate_rsi (closes : List ℚ) (period : ℕ := 14) : Option ℚ :=
  if closes.length < period + 1 then none
  else
    let ds := diffs closes
    let seed := ds.take (period + 1)
    let up0 : ℚ := (seed.filter (fun d => d ≥ 0)).sum / period
    let down0 : ℚ := -((seed.filter (fun d => d < 0)).sum) / period
    let ud := (ds.drop (period - 1)).foldl (wilderStep period) (up0, down0)
    some (rsiFromUD ud.1 ud.2)

/-- Modelled from the spec: the claim's reading of `calculate_rsi` —
standard Wilder RSI that seeds the average gain/loss from the first
`period` deltas and then smooths forward over the remaining deltas, one
sample at a time.  Used only to compare against the source function. -/
def rsi_claimed (closes : List ℚ) (period : ℕ := 14) : Option ℚ :=
  if closes.length < period + 1 then none
  else
    let ds := diffs closes
    let seed := ds.take period
    let up0 : ℚ := (seed.filter (fun d => d ≥ 0)).sum / period
    let down0 : ℚ := -((seed.filter (fun d => d < 0)).sum) / period
    let ud := (ds.drop period).foldl (wilderStep period) (up0, down0)
    some (rsiFromUD ud.1 ud.2)

/-!  Strategy Engine: `market/Strategies/strategies.py`.  Only the chosen
action matters to callers (`signal["action"]`); the human-readable reason
string and confidence tag are elided. -/

inductive SigAction where
  | BUY
  | SELL
  | EXIT
deriving DecidableEq, Repr

/-- `check_adx_strategy` (strategies.py lines 3-48).  `current_side` is the
string the caller passes (the code compares against "NONE", "LONG",
"SHORT"; anything else falls through to no signal). -/
def check_adx_strategy (info : AdxInfo) (current_side : String) : Option SigAction :=
  match info.di_plus, info.di_minus with
  | some dp, some dm =>
    if current_side = "NONE" then
      if dp > 20 ∧ dp > dm then some SigAction.BUY
      else if dm > 20 ∧ dm > dp then some SigAction.SELL
      else none
    else if current_side = "LONG" then
      if dp < 18 then some SigAction.EXIT else none
    else if current_side = "SHORT" then
      if dm < 18 then some SigAction.EXIT else none
    else none
  | _, _ => none

/-- `check_macd_strategy` (strategies.py lines 50-78). -/
def check_macd_strategy (line : Option ℚ) (current_side : String) : Option SigAction :=
  match line with
  | none => none
  | some l =>
    if current_side = "NONE" then
      if l > 0 then some SigAction.BUY
      else if l < 0 then some SigAction.SELL
      else none
    else if current_side = "LONG" then
      if l < 0 then some SigAction.EXIT else none
    else if current_side = "SHORT" then
      if l > 0 then some SigAction.EXIT else none
    else none

/-!  Position Store: `market/WebSocketUtility/consumers.py`. -/

/-- `open_position_db` (consumers.py lines 571-628): computes target and
stoploss from the fixed risk/reward parameters, persists a new OPEN row
(appended to the table) and emits a position-opened notification.  Returns
the new table, the created record and the emitted events.  Symbol-name
lookup and logging are elided; `exchange` is hard-coded "NSE" as in the
source. -/
def open_position_db (ps : List PositionRec) (tok sym side : String)
    (entry_price : ℚ) (quantity lots : ℕ) (now : ℕ) :
    List PositionRec × PositionRec × List Event :=
  let risk_reward : ℚ := 3 / 2
  let risk_percent : ℚ := 1 / 100
  let reward_percent : ℚ := risk_percent * risk_reward
  let target : ℚ :=
    if side = "LONG" then entry_price * (1 + reward_percent)
    else entry_price * (1 - reward_percent)
  let stoploss : ℚ :=
    if side = "LONG" then entry_price * (1 - risk_percent)
    else entry_price * (1 + risk_percent)
  let p : PositionRec :=
    { symbol := sym, exchange := "NSE", token := tok,
      entry_price := some entry_price, entry_datetime := now,
      exit_price := none, exit_datetime := none,
      target := some (round2 target), stoploss := some (round2 stoploss),
      mtm := 0, status := "OPEN", lots := lots, quantity := quantity }
  (ps ++ [p], p, [Event.positionOpened tok (round2 target) (round2 stoploss)])

/-- `close_position_db` (consumers.py lines 630-677): looks up the open
position (latest entry time first), infers the PNL sign from which of
entry/exit price is larger, freezes `mtm`, stamps exit price/time, sets
status CLOSED and emits a position-closed notification; a miss is a no-op
returning `None`. -/
def close_position_db (ps : List PositionRec) (tok : String) (exit_price : ℚ)
    (now : ℕ) : List PositionRec × List Event :=
  match get_open_position_for_token ps tok with
  | none => (ps, [])
  | some (i, pos) =>
    let pnl : ℚ :=
      match pos.entry_price with
      | none => 0
      | some e =>
        if e < exit_price then (exit_price - e) * pos.quantity
        else (e - exit_price) * pos.quantity
    let pos' : PositionRec :=
      { pos with exit_price := some exit_price, exit_datetime := some now,
                 mtm := round2 pnl, status := "CLOSED" }
    (ps.set i pos', [Event.positionClosed tok exit_price (round2 pnl)])

/-- The per-tick MTM value computed in `on_data` (connection.py lines
106-109): the larger of `ltp - entry` and `entry - ltp`, times quantity. -/
def computeMtmRaw (entry ltp : ℚ) (qty : ℕ) : ℚ :=
  if ltp ≥ entry then (ltp - entry) * qty else (entry - ltp) * qty

/-- The materiality-guarded write of `on_data` (connection.py lines
111-113): persist `round(mtm, 2)` only when it moved by more than 0.05
from the stored value; the boolean reports whether a write happened. -/
def mtmPersist (pos : PositionRec) (m : ℚ) : PositionRec × Bool :=
  if |m - pos.mtm| > 1 / 20 then ({ pos with mtm := round2 m }, true)
  else (pos, false)

/-- Target-hit test of `on_data` (connection.py lines 133-137): a 1%
tolerance band around the target combined with the side of entry. -/
def targetHit (target : Option ℚ) (entry ltp : ℚ) : Prop :=
  match target with
  | none => False
  | some t => (ltp ≥ t * (99 / 100) ∧ ltp ≥ entry) ∨ (ltp ≤ t * (101 / 100) ∧ ltp ≤ entry)

instance (target : Option ℚ) (entry ltp : ℚ) : Decidable (targetHit target entry ltp) := by
  unfold targetHit; cases target <;> infer_instance

/-- Stoploss-hit test of `on_data` (connection.py lines 140-144). -/
def stopHit (stoploss : Option ℚ) (entry ltp : ℚ) : Prop :=
  match stoploss with
  | none => False
  | some s => (ltp ≤ s ∧ ltp ≤ entry) ∨ (ltp ≥ s ∧ ltp ≥ entry)

instance (stoploss : Option ℚ) (entry ltp : ℚ) : Decidable (stopHit stoploss entry ltp) := by
  unfold stopHit; cases stoploss <;> infer_instance

/-- Result of one tick through `on_data`: the position table afterwards,
the emitted events, and how many times `close_position_db` was invoked. -/
structure TickResult where
  positions : List PositionRec
  events : List Event
  closeCalls : ℕ
deriving DecidableEq, Repr

/-- `on_data` (connection.py lines 78-165): drop zero/absent prices, emit
the price update, then for an open position recompute MTM behind the
materiality guard and auto-exit on a target/stoploss breach via
`close_position_db`.  `raw` is the integer minor-unit price. -/
def on_data (ps : List PositionRec) (tok : String) (raw : Option ℤ) (now : ℕ) :
    TickResult :=
  match raw with
  | none => ⟨ps, [], 0⟩
  | some r =>
    if r = 0 then ⟨ps, [], 0⟩
    else
      let ltp : ℚ := (r : ℚ) / 100
      let ev1 := Event.priceUpdate tok ltp
      match findOpenFirst ps tok with
      | none => ⟨ps, [ev1], 0⟩
      | some (i, pos) =>
        match pos.entry_price with
        | none => ⟨ps, [ev1], 0⟩
        | some entry =>
          let m := computeMtmRaw entry ltp pos.quantity
          let pw := mtmPersist pos m
          let ps1 := ps.set i pw.1
          let evs1 := if pw.2 then [Event.mtmUpdate tok pw.1.mtm] else []
          if targetHit pw.1.target entry ltp ∨ stopHit pw.1.stoploss entry ltp then
            let cr := close_position_db ps1 tok ltp now
            ⟨cr.1, ev1 :: evs1 ++ cr.2 ++ [Event.autoExit tok ltp], 1⟩
          else ⟨ps1, ev1 :: evs1, 0⟩

/-- `current_side` as computed in `handle_get_historical` (consumers.py
line 519): the string "OPEN" when an open position exists, else "NONE". -/
def current_side (ps : List PositionRec) (tok : String) : String :=
  match get_open_position_for_token ps tok with
  | none => "NONE"
  | some _ => "OPEN"

/-- One cycle of the `refresh_loop` in `start_indicator_monitor`
(consumers.py lines 107-118) over `send_current_indicators` (lines
125-183): visit the first five monitored tokens; `snapOf` abstracts the
external candle fetch plus indicator computation (`none` = fetch failed, a
guard hit, or an exception — the token is skipped).  On success
`send_current_indicators` builds the payload and sends it (lines 159-180):
no strategy evaluation and no position-store call occur on this path, so
the accumulator's position table is carried through unchanged. -/
def refresh_cycle (monitor : List String) (snapOf : String → Option IndicatorSnapshot)
    (ps : List PositionRec) : List PositionRec × List Event :=
  (monitor.take 5).foldl
    (fun acc tok =>
      match snapOf tok with
      | none => acc
      | some snap => (acc.1, acc.2 ++ [Event.indicatorUpdate tok snap]))
    (ps, [])

/-!  Subscription Registry: `handle_subscribe` (consumers.py lines
185-266).  The `subscribed_tokens` dict (exchangeType → set of tokens) is
modelled as a total function defaulting to the empty list — `handle_subscribe`
only ever reads it through the "absent key or token not in set" test, for
which the default is equivalent.  The token→symbol map update is elided
(it is never read by any claim's behaviour). -/

/-- One row of the downloaded instrument directory. -/
structure Instr where
  symbol : String
  exch_seg : String
  token : String
deriving DecidableEq, Repr

/-- `EXCHANGE_MAP.get(exchange, 1)` (consumers.py lines 22-31, 197). -/
def exchangeMap (e : String) : ℕ :=
  if e = "NSE" then 1
  else if e = "NFO" then 2
  else if e = "BSE" then 3
  else if e = "BFO" then 4
  else if e = "MCX" then 5
  else if e = "NCO" then 5
  else if e = "NCDEX" then 7
  else if e = "CDS" then 13
  else 1

/-- The consumer state touched by `handle_subscribe`. -/
structure SubState where
  instrument_list : List Instr
  subscribed_tokens : ℕ → List String
  monitor_symbols : List String

/-- Symbol resolution inside the subscribe loop (consumers.py lines
201-212): first directory row matching symbol and exchange segment; a
missing row or a falsy token string resolves to nothing (warning path). -/
def resolve (il : List Instr) (exch ts : String) : Option String :=
  match il.find? (fun i => i.symbol == ts && i.exch_seg == exch) with
  | none => none
  | some i => if i.token = "" then none else some i.token

/-- One iteration of the subscribe loop's token accumulation (consumers.py
lines 201-212): append the resolved token unless it is already in the
segment's current subscription set (`subs`, which the loop does not
update, so a symbol repeated in one request is appended twice, as in the
source). -/
def subStep (il : List Instr) (subs : List String) (exch : String)
    (acc : List String) (ts : String) : List String :=
  match resolve il exch ts with
  | none => acc
  | some tok => if tok ∈ subs then acc else acc ++ [tok]

/-- The `tokens` list accumulated by the subscribe loop. -/
def collectNewTokens (il : List Instr) (subs : List String) (exch : String)
    (syms : List String) : List String :=
  syms.foldl (subStep il subs exch) []

/-- Python `set.update` / the dedup-append loops of `handle_subscribe`
(lines 233 and 242-245), preserving first-seen order. -/
def setUnion (s ts : List String) : List String :=
  ts.foldl (fun s tok => if tok ∈ s then s else s ++ [tok]) s

/-- Per-symbol warning events emitted by the subscribe loop (consumers.py
lines 213-218). -/
def subscribeWarnings (il : List Instr) (exch : String) (syms : List String) :
    List Event :=
  syms.filterMap
    (fun ts =>
      match resolve il exch ts with
      | none => some (Event.warningSymbolNotFound ts)
      | some _ => none)

/-- `handle_subscribe(tradingsymbols, exchange)` (consumers.py lines
185-266).  Returns the new state, the newly-subscribed token list reported
in the "subscribed" response (empty on the `no_new_subscriptions` path)
and the emitted events. -/
def handle_subscribe (st : SubState) (syms : List String) (exch : String) :
    SubState × List String × List Event :=
  if st.instrument_list = [] then
    (st, [], [Event.errorMsg "Instrument list not loaded"])
  else
    let etype := exchangeMap exch
    let warnings := subscribeWarnings st.instrument_list exch syms
    let tokens := collectNewTokens st.instrument_list (st.subscribed_tokens etype) exch syms
    if tokens = [] then (st, [], warnings ++ [Event.noNewSubscriptions])
    else
      ({ st with
          subscribed_tokens := fun e =>
            if e = etype then setUnion (st.subscribed_tokens etype) tokens
            else st.subscribed_tokens e,
          monitor_symbols := setUnion st.monitor_symbols tokens },
       tokens,
       warnings ++ [Event.subscribeUpstream etype tokens,
                    Event.subscribedResp syms tokens])

/-!  Reachable position tables: every way the repository writes the
position table — `open_position_db`, the tick path `on_data`, and
`close_position_db` (the `handle_strategy_signal` paths go through the
first and the last of these). -/

inductive ReachableDB : List PositionRec → Prop where
  | init : ReachableDB []
  | step_open (ps : List PositionRec) (tok sym side : String) (e : ℚ)
      (q l now : ℕ) : ReachableDB ps →
      ReachableDB (open_position_db ps tok sym side e q l now).1
  | step_tick (ps : List PositionRec) (tok : String) (raw : Option ℤ) (now : ℕ) :
      ReachableDB ps → ReachableDB (on_data ps tok raw now).positions
  | step_close (ps : List PositionRec) (tok : String) (x : ℚ) (now : ℕ) :
      ReachableDB ps → ReachableDB (close_position_db ps tok x now).1

/-!  Concrete inputs used by counterexamples and witnesses. -/

/-- A LONG-style open position: entry 100, quantity 50, no target/stoploss. -/
def posC1 : PositionRec :=
  ⟨"S", "NSE", "T1", some 100, 0, none, none, none, none, 0, "OPEN", 1, 50⟩

/-- Sixteen closes: fifteen rising by 2, then a crash to 0.  The 15th delta
(-30) enters the source's seed but not the claimed (standard Wilder) seed. -/
def closes16 : List ℚ := [2, 4, 6, 8, 10, 12, 14, 16, 18, 20, 22, 24, 26, 28, 30, 0]

/-- An indicator snapshot whose ADX part fires the BUY rule from side NONE. -/
def snapC2 : IndicatorSnapshot := ⟨none, none, none, none, ⟨none, some 25, some 10⟩⟩

/-- Directory in which the same token string is listed under two exchange
segments (tokens are opaque strings; nothing in the code forbids this). -/
def ilC6 : List Instr := [⟨"X", "NSE", "TK"⟩, ⟨"Y", "BSE", "TK"⟩]

/-- Fresh registry state over `ilC6`: nothing subscribed, nothing monitored. -/
def stC6 : SubState := ⟨ilC6, fun _ => [], []⟩

/-!  Claim theorems. -/

/-- C9: a tick whose last-traded price is absent or zero is dropped whole:
no event is emitted, the position table is untouched and no close call is
made. -/
theorem C9_zero_or_absent_tick_dropped :
    ∀ (ps : List PositionRec) (tok : String) (now : ℕ),
      on_data ps tok none now = ⟨ps, [], 0⟩ ∧ on_data ps tok (some 0) now = ⟨ps, [], 0⟩ := by
  intro ps tok now
  exact ⟨rfl, by simp [on_data]⟩

/-!  Arithmetic helpers about `round2`. -/

theorem floor_half : ⌊(1 : ℚ) / 2⌋ = 0 := by
  rw [Int.floor_eq_zero_iff]
  constructor <;> norm_num

/-- `round2` fixes any value that is already a whole number of hundredths. -/
theorem round2_of_int_mul (x : ℚ) (n : ℤ) (h : x * 100 = (n : ℚ)) : round2 x = x := by
  unfold round2
  rw [rat_floor_eq_intFloor, h, Int.floor_int_add, floor_half]
  have hx : x = (n : ℚ) / 100 := by
    field_simp at h ⊢
    linarith
  rw [hx]
  push_cast
  ring

theorem round2_natCast (n : ℕ) : round2 (n : ℚ) = n :=
  round2_of_int_mul _ (100 * n) (by push_cast; ring)

theorem round2_nonneg (q : ℚ) (h : 0 ≤ q) : 0 ≤ round2 q := by
  unfold round2
  rw [rat_floor_eq_intFloor]
  have h1 : (0 : ℤ) ≤ ⌊q * 100 + 1 / 2⌋ := Int.floor_nonneg.mpr (by positivity)
  positivity

/-- C3: a position created with side LONG and entry price e stores
target = e×(1+0.015) and stoploss = e×(1−0.01) (risk 1%, reward 1.5%),
each rounded to 2 decimals; with side SHORT the formulas are mirrored;
in particular entry 100 LONG gives target 101.5 and stoploss 99. -/
theorem C3_open_target_stoploss :
    (∀ (ps : List PositionRec) (tok sym : String) (e : ℚ) (q l now : ℕ),
        (open_position_db ps tok sym "LONG" e q l now).2.1.target
            = some (round2 (e * (1 + 15 / 1000)))
          ∧ (open_position_db ps tok sym "LONG" e q l now).2.1.stoploss
            = some (round2 (e * (1 - 1 / 100))))
    ∧ (∀ (ps : List PositionRec) (tok sym : String) (e : ℚ) (q l now : ℕ),
        (open_position_db ps tok sym "SHORT" e q l now).2.1.target
            = some (round2 (e * (1 - 15 / 1000)))
          ∧ (open_position_db ps tok sym "SHORT" e q l now).2.1.stoploss
            = some (round2 (e * (1 + 1 / 100))))
    ∧ (open_position_db [] "T" "SYM" "LONG" 100 50 1 0).2.1.target = some (203 / 2)
    ∧ (open_position_db [] "T" "SYM" "LONG" 100 50 1 0).2.1.stoploss = some 99 := by
  refine ⟨fun ps tok sym e q l now => ⟨?_, ?_⟩, fun ps tok sym e q l now => ⟨?_, ?_⟩, ?_, ?_⟩
  · simp [open_position_db]; norm_num
  · simp [open_position_db]
  · simp [open_position_db]; norm_num
  · simp [open_position_db]
  · simp only [open_position_db]
    norm_num
    exact round2_of_int_mul _ 10150 (by norm_num)
  · simp only [open_position_db]
    norm_num
    exact round2_of_int_mul _ 9900 (by norm_num)

/-- C8: the ADX rule — from side NONE, BUY iff +DI>20 and +DI>−DI, SELL
iff −DI>20 and −DI>+DI; from LONG, EXIT iff +DI<18; from SHORT, EXIT iff
−DI<18; an absent +DI or −DI yields no signal; and the two concrete
snapshots from the spec behave as claimed. -/
theorem C8_adx_rule :
    (∀ (a : Option ℚ) (dp dm : ℚ),
        check_adx_strategy ⟨a, some dp, some dm⟩ "NONE" = some SigAction.BUY
          ↔ dp > 20 ∧ dp > dm)
    ∧ (∀ (a : Option ℚ) (dp dm : ℚ),
        check_adx_strategy ⟨a, some dp, some dm⟩ "NONE" = some SigAction.SELL
          ↔ dm > 20 ∧ dm > dp)
    ∧ (∀ (a : Option ℚ) (dp dm : ℚ),
        check_adx_strategy ⟨a, some dp, some dm⟩ "LONG" = some SigAction.EXIT
          ↔ dp < 18)
    ∧ (∀ (a : Option ℚ) (dp dm : ℚ),
        check_adx_strategy ⟨a, some dp, some dm⟩ "SHORT" = some SigAction.EXIT
          ↔ dm < 18)
    ∧ (∀ (a dm : Option ℚ) (side : String), check_adx_strategy ⟨a, none, dm⟩ side = none)
    ∧ (∀ (a dp : Option ℚ) (side : String), check_adx_strategy ⟨a, dp, none⟩ side = none)
    ∧ check_adx_strategy ⟨none, some 25, some 10⟩ "NONE" = some SigAction.BUY
    ∧ check_adx_strategy ⟨none, some 15, some 10⟩ "LONG" = some SigAction.EXIT := by
  refine ⟨fun a dp dm => ?_, fun a dp dm => ?_, fun a dp dm => ?_, fun a dp dm => ?_,
    fun a dm side => ?_, fun a dp side => ?_, ?_, ?_⟩
  · simp only [check_adx_strategy]
    split_ifs <;> simp_all
  · simp only [check_adx_strategy]
    split_ifs <;> simp_all
    intro h
    linarith
  · simp only [check_adx_strategy]
    split_ifs <;> simp_all
  · simp only [check_adx_strategy]
    split_ifs <;> simp_all
  · simp [check_adx_strategy]
  · cases dp <;> simp [check_adx_strategy]
  · simp [check_adx_strategy]
    norm_num
  · simp [check_adx_strategy]
    norm_num

/-- C8 witness: the BUY direction of the NONE-side iff at the concrete
snapshot +DI=25, −DI=10. -/
theorem C8_adx_rule_witness :
    check_adx_strategy ⟨none, some 25, some 10⟩ "NONE" = some SigAction.BUY :=
  (C8_adx_rule.1 none 25 10).mpr (by norm_num)

/-- C1 counterexample: for the OPEN position with entry 100 and quantity
50, a tick at 99 stores mtm = 50, whereas the claimed signed PNL
(lastPrice − entry)×qty is −50: the code stores the absolute PNL, not the
signed LONG-convention PNL. -/
theorem C1_counterexample :
    (on_data [posC1] "T1" (some 9900) 0).positions.map PositionRec.mtm = [50]
    ∧ ((9900 : ℚ) / 100 - 100) * 50 = -50
    ∧ (50 : ℚ) ≠ -50 := by
  refine ⟨?_, by norm_num, by norm_num⟩
  simp only [on_data, posC1, findOpenFirst, openIdxRecs, openIdxRecsAux, isOpenFor,
    computeMtmRaw, mtmPersist, targetHit, stopHit]
  norm_num
  exact round2_of_int_mul _ 5000 (by norm_num)

/-- C1 amended: the per-tick MTM recompute is the absolute PNL
|lastPrice − entry|×qty; it is persisted (rounded to 2 decimals) only when
it moved by more than 0.05 from the stored value; and with no OPEN
position for the token the tick leaves the position table unchanged. -/
theorem C1_mtm_is_absolute :
    (∀ (entry ltp : ℚ) (q : ℕ), computeMtmRaw entry ltp q = |ltp - entry| * q)
    ∧ (∀ (pos : PositionRec) (m : ℚ),
        (mtmPersist pos m).1.mtm = if |m - pos.mtm| > 1 / 20 then round2 m else pos.mtm)
    ∧ (∀ (ps : List PositionRec) (tok : String) (raw : Option ℤ) (now : ℕ),
        findOpenFirst ps tok = none → (on_data ps tok raw now).positions = ps) := by
  refine ⟨fun entry ltp q => ?_, fun pos m => ?_, fun ps tok raw now h => ?_⟩
  · unfold computeMtmRaw
    split_ifs with h1
    · rw [abs_of_nonneg (by linarith)]
    · rw [abs_of_neg (by linarith)]
      ring
  · unfold mtmPersist
    split_ifs <;> rfl
  · cases raw with
    | none => rfl
    | some r =>
      by_cases hr : r = 0
      · simp [on_data, hr]
      · simp [on_data, hr, h]

/-- C1 witness: the no-open-position clause applied to the empty table. -/
theorem C1_mtm_is_absolute_witness :
    (on_data [] "T9" (some 100) 0).positions = [] :=
  C1_mtm_is_absolute.2.2 [] "T9" (some 100) 0 rfl

/-- Helper for C2: the refresh-cycle fold only accumulates
indicator-update events and never touches the position table. -/
theorem refresh_fold_events (snapOf : String → Option IndicatorSnapshot) :
    ∀ (l : List String) (q : List PositionRec) (acc : List Event),
      l.foldl
        (fun acc tok =>
          match snapOf tok with
          | none => acc
          | some snap => (acc.1, acc.2 ++ [Event.indicatorUpdate tok snap]))
        (q, acc)
      = (q, acc ++ l.filterMap (fun t => (snapOf t).map (Event.indicatorUpdate t))) := by
  intro l
  induction l with
  | nil => intro q acc; simp
  | cons t l ih =>
    intro q acc
    rw [List.foldl_cons]
    cases h : snapOf t with
    | none =>
      simp only [h]
      rw [ih]
      simp [h]
    | some snap =>
      simp only [h]
      rw [ih]
      simp [h]

/-- C2 counterexample: with one monitored token, an empty position table
(current side NONE) and a snapshot whose ADX part fires the BUY rule, the
periodic refresh cycle emits only the indicator update and leaves the
position store untouched — the produced-and-forwarded-signal part of the
claim fails (a forwarded BUY would have opened a position). -/
theorem C2_counterexample :
    check_adx_strategy snapC2.adx (current_side [] "T2") = some SigAction.BUY
    ∧ refresh_cycle ["T2"] (fun _ => some snapC2) [] =
        ([], [Event.indicatorUpdate "T2" snapC2]) := by
  constructor
  · simp [snapC2, current_side, get_open_position_for_token, openIdxRecs, openIdxRecsAux,
      pickLatest, check_adx_strategy]
    norm_num
  · rfl

/-- C2 amended: each periodic refresh cycle visits the first five
monitored tokens and, for each whose fetch and indicator computation
succeed, emits exactly one indicator-update notification; it never runs
the strategy engine and never forwards a signal to the position store
(those happen only in the on-demand get_historical path), so the position
table is returned unchanged. -/
theorem C2_refresh_emits_indicators_only :
    ∀ (monitor : List String) (snapOf : String → Option IndicatorSnapshot)
      (ps : List PositionRec),
      refresh_cycle monitor snapOf ps =
        (ps, (monitor.take 5).filterMap
          (fun t => (snapOf t).map (Event.indicatorUpdate t))) := by
  intro monitor snapOf ps
  unfold refresh_cycle
  rw [refresh_fold_events]
  simp

/-- C7: the absent-iff-short part of the claim holds (`None` exactly when
fewer than period+1 closes), but the seeding does not: the source seeds
from `deltas[:period+1]` — fifteen deltas summed and divided by 14 — and
re-applies `deltas[13]` in the smoothing loop, so on `closes16` it returns
254800/8023 (≈31.76) while the claimed standard Wilder seeding from the
first 14 deltas returns 325/7 (≈46.43). -/
theorem C7_rsi_seed_divergence :
    (∀ cs : List ℚ, (calculate_rsi cs 14).isSome = decide (15 ≤ cs.length))
    ∧ calculate_rsi closes16 14 = some (254800 / 8023)
    ∧ rsi_claimed closes16 14 = some (325 / 7)
    ∧ (254800 / 8023 : ℚ) ≠ 325 / 7 := by
  refine ⟨?_, ?_, ?_, by norm_num⟩
  · intro cs
    unfold calculate_rsi
    by_cases h : cs.length < 15
    · simp only [if_pos h, Option.isSome_none]
      exact (decide_eq_false (by omega)).symm
    · simp only [if_neg h, Option.isSome_some]
      exact (decide_eq_true (by omega)).symm
  · have hlen : ¬ (closes16.length < 14 + 1) := by norm_num [closes16]
    have hd : diffs closes16 = [2, 2, 2, 2, 2, 2, 2, 2, 2, 2, 2, 2, 2, 2, -30] := by
      norm_num [closes16, diffs]
    simp only [calculate_rsi]
    rw [if_neg hlen, hd]
    rw [show List.take 15 ([2, 2, 2, 2, 2, 2, 2, 2, 2, 2, 2, 2, 2, 2, -30] : List ℚ)
          = [2, 2, 2, 2, 2, 2, 2, 2, 2, 2, 2, 2, 2, 2, -30] from rfl,
        show List.drop 13 ([2, 2, 2, 2, 2, 2, 2, 2, 2, 2, 2, 2, 2, 2, -30] : List ℚ)
          = [2, -30] from rfl]
    norm_num [List.filter_cons, List.foldl_cons, wilderStep, rsiFromUD]
  · have hlen : ¬ (closes16.length < 14 + 1) := by norm_num [closes16]
    have hd : diffs closes16 = [2, 2, 2, 2, 2, 2, 2, 2, 2, 2, 2, 2, 2, 2, -30] := by
      norm_num [closes16, diffs]
    simp only [rsi_claimed]
    rw [if_neg hlen, hd]
    rw [show List.take 14 ([2, 2, 2, 2, 2, 2, 2, 2, 2, 2, 2, 2, 2, 2, -30] : List ℚ)
          = [2, 2, 2, 2, 2, 2, 2, 2, 2, 2, 2, 2, 2, 2] from rfl,
        show List.drop 14 ([2, 2, 2, 2, 2, 2, 2, 2, 2, 2, 2, 2, 2, 2, -30] : List ℚ)
          = [-30] from rfl]
    norm_num [List.filter_cons, List.foldl_cons, wilderStep, rsiFromUD]

/-- C4: on a LONG-style position with entry 100 and stoploss 99 (any
target, quantity, lots, prior mtm), the tick at price 99 produces exactly
one close call, and the position transitions OPEN to CLOSED with exit
price 99 — even when the tolerance-banded target condition is true on the
same tick, the single should-exit flag yields one close only. -/
theorem C4_stoploss_tick_closes_once :
    ∀ (target : Option ℚ) (q l ed now : ℕ) (m0 : ℚ) (sym exch : String),
      (on_data [⟨sym, exch, "T", some 100, ed, none, none, target, some 99, m0, "OPEN", l, q⟩]
          "T" (some 9900) now).closeCalls = 1
      ∧ (on_data [⟨sym, exch, "T", some 100, ed, none, none, target, some 99, m0, "OPEN", l, q⟩]
          "T" (some 9900) now).positions
        = [⟨sym, exch, "T", some 100, ed, some 99, some now, target, some 99, (q : ℚ),
            "CLOSED", l, q⟩] := by
  intro target q l ed now m0 sym exch
  have hstop : stopHit (some 99) (100 : ℚ) 99 := Or.inl ⟨le_refl 99, by norm_num⟩
  refine ⟨?_, ?_⟩ <;>
  · simp only [on_data, findOpenFirst, openIdxRecs, openIdxRecsAux, isOpenFor]
    norm_num
    rcases lt_or_ge ((1 : ℚ) / 20) |computeMtmRaw (100 : ℚ) 99 q - m0| with hm | hm
    · simp only [mtmPersist, if_pos hm]
      rw [if_pos (Or.inr hstop)]
      try simp [close_position_db, get_open_position_for_token, openIdxRecs, openIdxRecsAux,
        isOpenFor, pickLatest]
      try norm_num [round2_natCast]
    · simp only [mtmPersist, if_neg (not_lt.mpr hm)]
      rw [if_pos (Or.inr hstop)]
      try simp [close_position_db, get_open_position_for_token, openIdxRecs, openIdxRecsAux,
        isOpenFor, pickLatest]
      try norm_num [round2_natCast]

/-!  List machinery for the close-idempotence claim. -/

theorem openAux_nil_of_all_closed (tok : String) (ps : List PositionRec)
    (h : ∀ p ∈ ps, isOpenFor tok p = false) : ∀ i, openIdxRecsAux tok i ps = [] := by
  induction ps with
  | nil => intro i; rfl
  | cons p rest ih =>
    intro i
    have hp := h p (by simp)
    simp only [openIdxRecsAux, hp, Bool.false_eq_true, if_false]
    exact ih (fun x hx => h x (by simp [hx])) (i + 1)

theorem set_len_append (l r : List PositionRec) (p x : PositionRec) :
    (l ++ p :: r).set l.length x = l ++ x :: r := by
  induction l with
  | nil => rfl
  | cons a l ih => simp [List.set, ih]

theorem openAux_singleton (tok : String) :
    ∀ ps : List PositionRec, ps.countP (isOpenFor tok) = 1 →
      ∃ l pos r, ps = l ++ pos :: r ∧ isOpenFor tok pos = true
        ∧ (∀ p ∈ l, isOpenFor tok p = false) ∧ (∀ p ∈ r, isOpenFor tok p = false)
        ∧ ∀ i, openIdxRecsAux tok i ps = [(i + l.length, pos)] := by
  intro ps
  induction ps with
  | nil => intro h; simp at h
  | cons p rest ih =>
    intro h
    rw [List.countP_cons] at h
    by_cases hp : isOpenFor tok p
    · have hclosed : ∀ x ∈ rest, isOpenFor tok x = false := by
        rw [hp] at h
        simp at h
        exact h
      refine ⟨[], p, rest, by simp, hp, by simp, hclosed, ?_⟩
      intro i
      simp only [openIdxRecsAux, hp, if_true]
      rw [openAux_nil_of_all_closed tok rest hclosed (i + 1)]
      simp
    · have hp' : isOpenFor tok p = false := by simpa using hp
      have hrest : rest.countP (isOpenFor tok) = 1 := by
        rw [hp'] at h
        simp at h
        omega
      obtain ⟨l, pos, r, hps, hpos, hl, hr, haux⟩ := ih hrest
      refine ⟨p :: l, pos, r, by simp [hps], hpos, ?_, hr, ?_⟩
      · intro x hx
        rcases List.mem_cons.mp hx with rfl | hx
        · exact hp'
        · exact hl x hx
      · intro i
        simp only [openIdxRecsAux, hp', Bool.false_eq_true, if_false]
        rw [haux (i + 1)]
        simp
        omega

theorem no_open_after_close (tok : String) (l r : List PositionRec) (x : PositionRec)
    (hl : ∀ p ∈ l, isOpenFor tok p = false) (hr : ∀ p ∈ r, isOpenFor tok p = false)
    (hx : isOpenFor tok x = false) :
    get_open_position_for_token (l ++ x :: r) tok = none := by
  unfold get_open_position_for_token openIdxRecs
  rw [openAux_nil_of_all_closed tok (l ++ x :: r) ?_ 0]
  · rfl
  · intro p hp
    rcases List.mem_append.mp hp with hp | hp
    · exact hl p hp
    · rcases List.mem_cons.mp hp with rfl | hp
      · exact hx
      · exact hr p hp

theorem close_result (ps : List PositionRec) (tok : String) (x : ℚ) (now : ℕ)
    (l : List PositionRec) (pos : PositionRec) (r : List PositionRec)
    (hps : ps = l ++ pos :: r)
    (hget : get_open_position_for_token ps tok = some (l.length, pos)) :
    ∃ pc, (close_position_db ps tok x now).1 = l ++ pc :: r ∧ pc.status = "CLOSED" := by
  simp only [close_position_db, hget]
  rw [hps, set_len_append]
  exact ⟨_, rfl, rfl⟩

/-- C5: Close is idempotent — starting from any position table holding at
most one OPEN row for the token (the store's invariant), a second Close
with any exit price and time after a first Close is a no-op: it returns
the table exactly as the first Close left it (exitPrice, exitTime, mtm and
status untouched) and emits nothing. -/
theorem C5_close_idempotent (ps : List PositionRec) (tok : String) (p1 p2 : ℚ) (t1 t2 : ℕ)
    (h : ps.countP (isOpenFor tok) ≤ 1) :
    close_position_db (close_position_db ps tok p1 t1).1 tok p2 t2
      = ((close_position_db ps tok p1 t1).1, []) := by
  rcases Nat.le_one_iff_eq_zero_or_eq_one.mp h with h0 | h1
  · have hget : get_open_position_for_token ps tok = none := by
      unfold get_open_position_for_token openIdxRecs
      rw [openAux_nil_of_all_closed tok ps
        (fun p hp => by simpa using List.countP_eq_zero.mp h0 p hp) 0]
      rfl
    simp [close_position_db, hget]
  · obtain ⟨l, pos, r, hps, hpos, hl, hr, haux⟩ := openAux_singleton tok ps h1
    have hget : get_open_position_for_token ps tok = some (l.length, pos) := by
      unfold get_open_position_for_token openIdxRecs
      rw [haux 0]
      simp [pickLatest]
    obtain ⟨pc, hc1, hcs⟩ := close_result ps tok p1 t1 l pos r hps hget
    have hnone : get_open_position_for_token (close_position_db ps tok p1 t1).1 tok = none := by
      rw [hc1]
      exact no_open_after_close tok l r pc hl hr (by simp [isOpenFor, hcs])
    set ps1 := (close_position_db ps tok p1 t1).1 with hps1
    simp [close_position_db, hnone]

def posC5 : PositionRec :=
  ⟨"S", "NSE", "T5", some 100, 0, none, none, none, none, 0, "OPEN", 1, 1⟩

/-- C5 witness: the double close evaluated on a concrete one-row table. -/
theorem C5_close_idempotent_witness :
    close_position_db (close_position_db [posC5] "T5" 101 1).1 "T5" 95 2
      = ((close_position_db [posC5] "T5" 101 1).1, []) :=
  C5_close_idempotent [posC5] "T5" 101 95 1 2 (by decide)

/-!  Machinery for the subscription-registry claim. -/

theorem subStep_append (il : List Instr) (subs : List String) (exch : String)
    (acc : List String) (ts : String) :
    subStep il subs exch acc ts = acc ++ subStep il subs exch [] ts := by
  unfold subStep
  cases resolve il exch ts with
  | none => simp
  | some tok =>
    dsimp only
    split_ifs <;> simp

theorem collect_acc (il : List Instr) (subs : List String) (exch : String) :
    ∀ (syms : List String) (acc : List String),
      syms.foldl (subStep il subs exch) acc = acc ++ collectNewTokens il subs exch syms := by
  intro syms
  induction syms with
  | nil => intro acc; simp [collectNewTokens]
  | cons t syms ih =>
    intro acc
    simp only [collectNewTokens, List.foldl_cons]
    rw [ih, ih (subStep il subs exch [] t), subStep_append, List.append_assoc]

theorem mem_collectNewTokens (il : List Instr) (subs : List String) (exch : String) :
    ∀ (syms : List String) (tok : String),
      tok ∈ collectNewTokens il subs exch syms
        ↔ tok ∉ subs ∧ ∃ ts ∈ syms, resolve il exch ts = some tok := by
  intro syms
  induction syms with
  | nil => intro tok; simp [collectNewTokens]
  | cons t syms ih =>
    intro tok
    have hstep : collectNewTokens il subs exch (t :: syms)
        = subStep il subs exch [] t ++ collectNewTokens il subs exch syms := by
      simp only [collectNewTokens, List.foldl_cons]
      rw [collect_acc]
      rfl
    rw [hstep]
    simp only [List.mem_append, ih]
    unfold subStep
    cases hr : resolve il exch t with
    | none =>
      dsimp only
      constructor
      · rintro (h0 | ⟨hn, ts, hts, hrt⟩)
        · exact absurd h0 (List.not_mem_nil tok)
        · exact ⟨hn, ts, List.mem_cons_of_mem t hts, hrt⟩
      · rintro ⟨hn, ts, hts, hrt⟩
        rcases List.mem_cons.mp hts with rfl | hts
        · rw [hr] at hrt; exact absurd hrt (by simp)
        · exact Or.inr ⟨hn, ts, hts, hrt⟩
    | some tk =>
      dsimp only
      split_ifs with hin
      · constructor
        · rintro (h0 | ⟨hn, ts, hts, hrt⟩)
          · exact absurd h0 (List.not_mem_nil tok)
          · exact ⟨hn, ts, List.mem_cons_of_mem t hts, hrt⟩
        · rintro ⟨hn, ts, hts, hrt⟩
          rcases List.mem_cons.mp hts with rfl | hts
          · rw [hr] at hrt
            cases hrt
            exact absurd hin hn
          · exact Or.inr ⟨hn, ts, hts, hrt⟩
      · simp only [List.nil_append, List.mem_singleton]
        constructor
        · rintro (rfl | ⟨hn, ts, hts, hrt⟩)
          · exact ⟨hin, t, List.mem_cons_self t syms, hr⟩
          · exact ⟨hn, ts, List.mem_cons_of_mem t hts, hrt⟩
        · rintro ⟨hn, ts, hts, hrt⟩
          rcases List.mem_cons.mp hts with rfl | hts
          · rw [hr] at hrt
            cases hrt
            exact Or.inl rfl
          · exact Or.inr ⟨hn, ts, hts, hrt⟩

theorem collect_nil_of_all_in (il : List Instr) (subs : List String) (exch : String) :
    ∀ syms : List String,
      (∀ ts ∈ syms, ∀ tok, resolve il exch ts = some tok → tok ∈ subs) →
      collectNewTokens il subs exch syms = [] := by
  intro syms
  induction syms with
  | nil => intro _; rfl
  | cons t syms ih =>
    intro h
    have hstep : collectNewTokens il subs exch (t :: syms)
        = subStep il subs exch [] t ++ collectNewTokens il subs exch syms := by
      simp only [collectNewTokens, List.foldl_cons]
      rw [collect_acc]
      rfl
    rw [hstep, ih (fun ts hts => h ts (List.mem_cons_of_mem t hts))]
    unfold subStep
    cases hr : resolve il exch t with
    | none => rfl
    | some tk =>
      dsimp only
      rw [if_pos (h t (List.mem_cons_self t syms) tk hr)]
      rfl

theorem mem_setUnion (x : String) :
    ∀ (ts s : List String), x ∈ setUnion s ts ↔ x ∈ s ∨ x ∈ ts := by
  intro ts
  induction ts with
  | nil => intro s; simp [setUnion]
  | cons t ts ih =>
    intro s
    show x ∈ setUnion (if t ∈ s then s else s ++ [t]) ts ↔ _
    rw [ih]
    split_ifs with hts
    · constructor
      · rintro (h | h)
        · exact Or.inl h
        · exact Or.inr (List.mem_cons_of_mem t h)
      · rintro (h | h)
        · exact Or.inl h
        · rcases List.mem_cons.mp h with rfl | h
          · exact Or.inl hts
          · exact Or.inr h
    · simp only [List.mem_append, List.mem_cons, List.mem_singleton]
      tauto

theorem upstream_not_in_warnings (il : List Instr) (exch : String) (syms : List String)
    (e : ℕ) (ts : List String) :
    Event.subscribeUpstream e ts ∉ subscribeWarnings il exch syms := by
  intro h
  rcases List.mem_filterMap.mp h with ⟨a, _, hmap⟩
  cases hr : resolve il exch a <;> rw [hr] at hmap <;> simp at hmap

/-- C6 counterexample: with a directory listing the same token string
"TK" under both NSE and BSE, subscribing to "X"@NSE and then "Y"@BSE
returns "TK" as newly subscribed a second time and re-issues the upstream
subscribe for it, although "TK" is already subscribed under segment 1 —
the dedup check is per requested segment, not across all segments. -/
theorem C6_counterexample :
    (handle_subscribe stC6 ["X"] "NSE").2.1 = ["TK"]
    ∧ "TK" ∈ (handle_subscribe stC6 ["X"] "NSE").1.subscribed_tokens 1
    ∧ (handle_subscribe (handle_subscribe stC6 ["X"] "NSE").1 ["Y"] "BSE").2.1 = ["TK"]
    ∧ Event.subscribeUpstream 3 ["TK"]
        ∈ (handle_subscribe (handle_subscribe stC6 ["X"] "NSE").1 ["Y"] "BSE").2.2 := by
  refine ⟨?_, ?_, ?_, ?_⟩ <;> decide

/-- Helper for C6: the newly-subscribed list returned by
`handle_subscribe` is exactly the loop's accumulated token list. -/
theorem handle_subscribe_ret_eq (st : SubState) (syms : List String) (exch : String)
    (hil : st.instrument_list ≠ []) :
    (handle_subscribe st syms exch).2.1
      = collectNewTokens st.instrument_list
          (st.subscribed_tokens (exchangeMap exch)) exch syms := by
  simp only [handle_subscribe]
  rw [if_neg hil]
  by_cases hn : collectNewTokens st.instrument_list
      (st.subscribed_tokens (exchangeMap exch)) exch syms = []
  · rw [if_pos hn, hn]
  · rw [if_neg hn]

/-- C6 amended: Subscribe adds to the segment's subscription set and to
the monitor list exactly those resolved tokens not already subscribed
under the requested segment, returns exactly that newly-added list,
issues the upstream subscribe request exactly when that list is nonempty
and only for it (no state change and no upstream call otherwise), and a
second identical subscribe call returns an empty newly-subscribed set. -/
theorem C6_subscribe_per_segment (st : SubState) (syms : List String) (exch : String)
    (hil : st.instrument_list ≠ []) :
    (handle_subscribe st syms exch).2.1
        = collectNewTokens st.instrument_list
            (st.subscribed_tokens (exchangeMap exch)) exch syms
    ∧ (∀ tok ∈ collectNewTokens st.instrument_list
          (st.subscribed_tokens (exchangeMap exch)) exch syms,
        tok ∉ st.subscribed_tokens (exchangeMap exch)
        ∧ tok ∈ (handle_subscribe st syms exch).1.subscribed_tokens (exchangeMap exch)
        ∧ tok ∈ (handle_subscribe st syms exch).1.monitor_symbols)
    ∧ (collectNewTokens st.instrument_list
          (st.subscribed_tokens (exchangeMap exch)) exch syms ≠ [] →
        Event.subscribeUpstream (exchangeMap exch)
            (collectNewTokens st.instrument_list
              (st.subscribed_tokens (exchangeMap exch)) exch syms)
          ∈ (handle_subscribe st syms exch).2.2)
    ∧ (collectNewTokens st.instrument_list
          (st.subscribed_tokens (exchangeMap exch)) exch syms = [] →
        (handle_subscribe st syms exch).1 = st
        ∧ ∀ (e : ℕ) (ts : List String),
            Event.subscribeUpstream e ts ∉ (handle_subscribe st syms exch).2.2)
    ∧ (handle_subscribe (handle_subscribe st syms exch).1 syms exch).2.1 = [] := by
  by_cases hn : collectNewTokens st.instrument_list
      (st.subscribed_tokens (exchangeMap exch)) exch syms = []
  · have heq : handle_subscribe st syms exch
        = (st, [], subscribeWarnings st.instrument_list exch syms
            ++ [Event.noNewSubscriptions]) := by
      simp only [handle_subscribe]
      rw [if_neg hil, if_pos hn]
    have h1 : (st, ([] : List String),
        subscribeWarnings st.instrument_list exch syms
          ++ [Event.noNewSubscriptions]).1 = st := rfl
    refine ⟨?_, ?_, ?_, ?_, ?_⟩
    · rw [heq, hn]
    · intro tok htok
      rw [hn] at htok
      exact absurd htok (List.not_mem_nil tok)
    · intro h
      exact absurd hn h
    · intro _
      refine ⟨by rw [heq], ?_⟩
      intro e ts h
      rw [heq] at h
      rcases List.mem_append.mp h with h | h
      · exact upstream_not_in_warnings st.instrument_list exch syms e ts h
      · simp at h
    · rw [heq, h1, heq]
  · have heq : handle_subscribe st syms exch
        = ({ st with
              subscribed_tokens := fun e =>
                if e = exchangeMap exch then
                  setUnion (st.subscribed_tokens (exchangeMap exch))
                    (collectNewTokens st.instrument_list
                      (st.subscribed_tokens (exchangeMap exch)) exch syms)
                else st.subscribed_tokens e,
              monitor_symbols := setUnion st.monitor_symbols
                (collectNewTokens st.instrument_list
                  (st.subscribed_tokens (exchangeMap exch)) exch syms) },
            collectNewTokens st.instrument_list
              (st.subscribed_tokens (exchangeMap exch)) exch syms,
            subscribeWarnings st.instrument_list exch syms
              ++ [Event.subscribeUpstream (exchangeMap exch)
                    (collectNewTokens st.instrument_list
                      (st.subscribed_tokens (exchangeMap exch)) exch syms),
                  Event.subscribedResp syms
                    (collectNewTokens st.instrument_list
                      (st.subscribed_tokens (exchangeMap exch)) exch syms)]) := by
      simp only [handle_subscribe]
      rw [if_neg hil, if_neg hn]
    refine ⟨?_, ?_, ?_, ?_, ?_⟩
    · rw [heq]
    · intro tok htok
      have hns := (mem_collectNewTokens st.instrument_list
        (st.subscribed_tokens (exchangeMap exch)) exch syms tok).mp htok
      refine ⟨hns.1, ?_, ?_⟩
      · rw [heq]
        show tok ∈ (if exchangeMap exch = exchangeMap exch then _ else _)
        rw [if_pos rfl]
        exact (mem_setUnion tok _ _).mpr (Or.inr htok)
      · rw [heq]
        exact (mem_setUnion tok _ _).mpr (Or.inr htok)
    · intro _
      rw [heq]
      exact List.mem_append.mpr (Or.inr (by simp))
    · intro h
      exact absurd h hn
    · rw [heq]
      dsimp only
      rw [handle_subscribe_ret_eq
        ({ st with
            subscribed_tokens := fun e =>
              if e = exchangeMap exch then
                setUnion (st.subscribed_tokens (exchangeMap exch))
                  (collectNewTokens st.instrument_list
                    (st.subscribed_tokens (exchangeMap exch)) exch syms)
              else st.subscribed_tokens e,
            monitor_symbols := setUnion st.monitor_symbols
              (collectNewTokens st.instrument_list
                (st.subscribed_tokens (exchangeMap exch)) exch syms) })
        syms exch hil]
      apply collect_nil_of_all_in
      intro ts hts tok hr
      have hr2 : resolve st.instrument_list exch ts = some tok := hr
      show tok ∈ (if exchangeMap exch = exchangeMap exch then
          setUnion (st.subscribed_tokens (exchangeMap exch))
            (collectNewTokens st.instrument_list
              (st.subscribed_tokens (exchangeMap exch)) exch syms)
        else st.subscribed_tokens (exchangeMap exch))
      rw [if_pos rfl]
      by_cases hsub : tok ∈ st.subscribed_tokens (exchangeMap exch)
      · exact (mem_setUnion tok _ _).mpr (Or.inl hsub)
      · refine (mem_setUnion tok _ _).mpr (Or.inr ?_)
        exact (mem_collectNewTokens st.instrument_list
          (st.subscribed_tokens (exchangeMap exch)) exch syms tok).mpr ⟨hsub, ts, hts, hr2⟩

/-- C6 witness: the amended theorem's return-value clause evaluated on the
concrete fresh registry. -/
theorem C6_subscribe_per_segment_witness :
    (handle_subscribe stC6 ["X"] "NSE").2.1
      = collectNewTokens stC6.instrument_list
          (stC6.subscribed_tokens (exchangeMap "NSE")) "NSE" ["X"] :=
  (C6_subscribe_per_segment stC6 ["X"] "NSE" (by decide)).1

/-!  Machinery for the mtm non-negativity invariant. -/

theorem computeMtmRaw_nonneg (entry ltp : ℚ) (q : ℕ) : 0 ≤ computeMtmRaw entry ltp q := by
  unfold computeMtmRaw
  split_ifs with h
  · have : (0 : ℚ) ≤ ltp - entry := by linarith
    positivity
  · have : (0 : ℚ) ≤ entry - ltp := by linarith
    positivity

theorem openAux_mem (tok : String) :
    ∀ (ps : List PositionRec) (i j : ℕ) (p : PositionRec),
      (j, p) ∈ openIdxRecsAux tok i ps → p ∈ ps := by
  intro ps
  induction ps with
  | nil => intro i j p h; simp [openIdxRecsAux] at h
  | cons a rest ih =>
    intro i j p h
    unfold openIdxRecsAux at h
    split_ifs at h with ha
    · rcases List.mem_cons.mp h with h | h
      · cases h
        exact List.mem_cons_self a rest
      · exact List.mem_cons_of_mem a (ih (i + 1) j p h)
    · exact List.mem_cons_of_mem a (ih (i + 1) j p h)

theorem pickLatest_mem (l : List (ℕ × PositionRec)) (x : ℕ × PositionRec)
    (h : pickLatest l = some x) : x ∈ l := by
  cases l with
  | nil => simp [pickLatest] at h
  | cons a xs =>
    unfold pickLatest at h
    cases h
    have main : ∀ (ys : List (ℕ × PositionRec)) (b : ℕ × PositionRec),
        ys.foldl (fun b y => if b.2.entry_datetime < y.2.entry_datetime then y else b) b
          ∈ b :: ys := by
      intro ys
      induction ys with
      | nil => intro b; simp
      | cons y ys ih =>
        intro b
        rw [List.foldl_cons]
        rcases List.mem_cons.mp (ih (if b.2.entry_datetime < y.2.entry_datetime then y else b))
          with h | h
        · rw [h]
          split_ifs
          · simp
          · simp
        · simp [h]
    rcases List.mem_cons.mp (main xs a) with h | h
    · rw [h]; exact List.mem_cons_self a xs
    · exact List.mem_cons_of_mem a h

theorem get_open_mem (ps : List PositionRec) (tok : String) (i : ℕ) (p : PositionRec)
    (h : get_open_position_for_token ps tok = some (i, p)) : p ∈ ps := by
  unfold get_open_position_for_token at h
  exact openAux_mem tok ps 0 i p (pickLatest_mem _ _ h)

theorem findOpenFirst_mem (ps : List PositionRec) (tok : String) (i : ℕ) (p : PositionRec)
    (h : findOpenFirst ps tok = some (i, p)) : p ∈ ps := by
  unfold findOpenFirst at h
  cases hl : openIdxRecs ps tok with
  | nil => rw [hl] at h; simp at h
  | cons a xs =>
    rw [hl] at h
    simp at h
    exact openAux_mem tok ps 0 i p
      (by rw [show openIdxRecsAux tok 0 ps = a :: xs from hl, ← h]
          exact List.mem_cons_self a xs)

def mtmNonneg (ps : List PositionRec) : Prop := ∀ p ∈ ps, 0 ≤ p.mtm

theorem close_preserves_mtmNonneg (ps : List PositionRec) (tok : String) (x : ℚ) (now : ℕ)
    (h : mtmNonneg ps) : mtmNonneg (close_position_db ps tok x now).1 := by
  unfold close_position_db
  cases hg : get_open_position_for_token ps tok with
  | none => exact h
  | some ip =>
    obtain ⟨i, pos⟩ := ip
    dsimp only
    intro p hp
    rcases List.mem_or_eq_of_mem_set hp with hp | hp
    · exact h p hp
    · subst hp
      show (0 : ℚ) ≤ round2 _
      apply round2_nonneg
      cases he : pos.entry_price with
      | none => simp
      | some e =>
        dsimp only
        split_ifs with hlt
        · have : (0 : ℚ) ≤ x - e := by linarith
          positivity
        · have : (0 : ℚ) ≤ e - x := by linarith
          positivity

theorem open_preserves_mtmNonneg (ps : List PositionRec) (tok sym side : String) (e : ℚ)
    (q l now : ℕ) (h : mtmNonneg ps) :
    mtmNonneg (open_position_db ps tok sym side e q l now).1 := by
  unfold open_position_db
  intro p hp
  rcases List.mem_append.mp hp with hp | hp
  · exact h p hp
  · rcases List.mem_singleton.mp hp with rfl
    norm_num

theorem tick_preserves_mtmNonneg (ps : List PositionRec) (tok : String) (raw : Option ℤ)
    (now : ℕ) (h : mtmNonneg ps) : mtmNonneg (on_data ps tok raw now).positions := by
  unfold on_data
  cases raw with
  | none => exact h
  | some r =>
    dsimp only
    split_ifs with hr
    · exact h
    · cases hf : findOpenFirst ps tok with
      | none => exact h
      | some ip =>
        obtain ⟨i, pos⟩ := ip
        dsimp only
        cases he : pos.entry_price with
        | none => exact h
        | some entry =>
          dsimp only
          have hpos : mtmNonneg (ps.set i (mtmPersist pos
              (computeMtmRaw entry ((r : ℚ) / 100) pos.quantity)).1) := by
            intro p hp
            rcases List.mem_or_eq_of_mem_set hp with hp | hp
            · exact h p hp
            · subst hp
              unfold mtmPersist
              split_ifs with hm
              · exact round2_nonneg _ (computeMtmRaw_nonneg entry _ pos.quantity)
              · exact h pos (findOpenFirst_mem ps tok i pos hf)
          split_ifs <;>
            first
              | exact close_preserves_mtmNonneg _ tok _ now hpos
              | exact hpos

/-- C10: every position table reachable through the three writers
(open, per-tick MTM update, close) holds only non-negative mtm values:
mtm starts at 0, the tick update stores the absolute PNL, and the close
heuristic subtracts the smaller price from the larger, so a loss is never
recorded negative. -/
theorem C10_mtm_nonneg (ps : List PositionRec) (h : ReachableDB ps) :
    ∀ p ∈ ps, 0 ≤ p.mtm := by
  induction h with
  | init => intro p hp; simp at hp
  | step_open ps tok sym side e q l now _ ih =>
    exact open_preserves_mtmNonneg ps tok sym side e q l now ih
  | step_tick ps tok raw now _ ih =>
    exact tick_preserves_mtmNonneg ps tok raw now ih
  | step_close ps tok x now _ ih =>
    exact close_preserves_mtmNonneg ps tok x now ih

/-- C10 witness: the invariant evaluated on the record created by one
open step from the empty table. -/
theorem C10_mtm_nonneg_witness :
    0 ≤ ((open_position_db [] "T0" "SYM" "LONG" 100 50 1 3).2.1).mtm :=
  C10_mtm_nonneg (open_position_db [] "T0" "SYM" "LONG" 100 50 1 3).1
    (ReachableDB.step_open [] "T0" "SYM" "LONG" 100 50 1 3 ReachableDB.init)
    (open_position_db [] "T0" "SYM" "LONG" 100 50 1 3).2.1
    (List.mem_singleton.mpr rfl)
